import Mathlib

/-!
Shallow embedding of `abp/filters/parser.py` (python-abp).

Strings are modelled as `List Char`.  Python exceptions are modelled by the
`Except PyExn` monad.  The regular expressions of the source are translated
into bespoke executable matching functions that implement the backtracking
semantics of the concrete patterns (greedy / lazy quantifier preferences,
alternation order, `re.match` prefix matching).  Character classes `\w` and
`\s` are modelled by their ASCII parts, which is exact on the inputs that
occur in filter lists.  `$` is modelled as end-of-string: `parse_line`
strips its input first, so a trailing `'\n'` (the only case where Python's
`$` differs) never reaches a regex.
-/

deriving instance DecidableEq for Except

namespace Abp

/-- Python `str.isspace` class restricted to ASCII: the characters stripped by
`str.strip()` and matched by `\s`. -/
def isSpace (c : Char) : Bool :=
  c == ' ' || c == '\t' || c == '\n' || c == '\r' || c == '\x0b' || c == '\x0c'

/-- Regex class `\w` (ASCII part): letters, digits and underscore. -/
def isWordChar (c : Char) : Bool :=
  c.isAlphanum || c == '_'

/-- Regex class `[\w\-]`. -/
def isWordDash (c : Char) : Bool :=
  isWordChar c || c == '-'

/-- Regex class `[^\/\*\|\@"!]` used for the domain part of `HFILTER_REGEXP`. -/
def isDomainChar (c : Char) : Bool :=
  c != '/' && c != '*' && c != '|' && c != '@' && c != '"' && c != '!'

/-- Regex class `[\d\.]` used in `HEADER_REGEXP`. -/
def isDigitDot (c : Char) : Bool :=
  c.isDigit || c == '.'

/-- Python `str.startswith`. -/
def startswith : List Char → List Char → Bool
  | _, [] => true
  | [], _ :: _ => false
  | c :: s, p :: ps => c == p && startswith s ps

/-- Python `str.endswith`. -/
def endswith (s p : List Char) : Bool :=
  startswith s.reverse p.reverse

/-- Python `str.strip()` (whitespace from both ends). -/
def strip (s : List Char) : List Char :=
  ((s.dropWhile isSpace).reverse.dropWhile isSpace).reverse

/-- Python `str.split(sep)` for a one-character separator: `''.split(sep)`
is `['']`, and n separators produce n+1 pieces. -/
def pySplit (sep : Char) : List Char → List (List Char)
  | [] => [[]]
  | c :: rest =>
    match pySplit sep rest with
    | [] => [[]]
    | h :: t => if c == sep then [] :: h :: t else (c :: h) :: t

/-- Removal of every whitespace character, used to state the round-trip
property of the spec ("with all whitespace removed"). -/
def removeWS (s : List Char) : List Char :=
  s.filter (fun c => !(isSpace c))

/-- Python `s.replace(' ', '')`: removal of the plain space character only,
exactly what the `assert` in `parse_line` uses. -/
def removeSpaces (s : List Char) : List Char :=
  s.filter (fun c => c != ' ')

/-- Exceptions thrown by the parser.  `parseError error text` models
`ParseError(error, text)` with its two positional arguments in the order of
`ParseError.__init__(self, error, text)`.  `attributeError` models the
`AttributeError` that `value.split('|')` raises when `value` is a `bool`,
and `assertionError` models a failure of the `assert` in `parse_line`. -/
inductive PyExn where
  | parseError (error : List Char) (text : List Char)
  | attributeError
  | assertionError
deriving DecidableEq

/-- Values of blocking-filter options: `True`/`False`, a string, or the
`|`-split list used for `domain` and `sitekey`. -/
inductive OptValue where
  | bool (b : Bool)
  | str (s : List Char)
  | strList (l : List (List Char))
deriving DecidableEq

/-- The seven line types created with `_line_type` in the source.  The field
order of each constructor follows the `namedtuple` field order. -/
inductive Record where
  | Header (version : List Char)
  | EmptyLine
  | Comment (text : List Char)
  | Metadata (key : List Char) (value : List Char)
  | Include (target : List Char)
  | BlockingFilter (expression : List Char) (is_exception : Bool)
      (options : List (List Char × OptValue)) (pattern : List Char)
  | HidingFilter (expression : List Char) (is_exception : Bool)
      (selector : List Char) (domains : List (List Char))
deriving DecidableEq

/-- The `to_string` method of each line type, given by its format string:
`'[{.version}]'`, `''`, `'! {.text}'`, `'! {0.key}: {0.value}'`,
`'%include {0.target}%'`, and `'{.expression}'` for both filter types. -/
def to_string : Record → List Char
  | .Header v => '[' :: (v ++ [']'])
  | .EmptyLine => []
  | .Comment t => ("! ".data) ++ t
  | .Metadata k v => ("! ".data) ++ k ++ (": ".data) ++ v
  | .Include t => ("%include ".data) ++ t ++ ['%']
  | .BlockingFilter e _ _ _ => e
  | .HidingFilter e _ _ _ => e

/-- Constant `METADATA_KEYS` of the source. -/
def METADATA_KEYS : List (List Char) :=
  [("Homepage".data), ("Title".data), ("Expires".data), ("Checksum".data),
   ("Redirect".data), ("Version".data)]

/-- Matching `METADATA_REGEXP.match(text)` for `r'!\s*(\w+)\s*:\s*(.*)'`: `!`, greedy
whitespace, a nonempty word (group 1), greedy whitespace, `:`, greedy
whitespace, then group 2 = the rest of the line up to a `'\n'` (Python `.`
does not match a newline; `re.match` does not require reaching the end). -/
def metadataMatch : List Char → Option (List Char × List Char)
  | '!' :: r =>
    let r1 := r.dropWhile isSpace
    let key := r1.takeWhile isWordChar
    if key = [] then none
    else
      match (r1.drop key.length).dropWhile isSpace with
      | ':' :: r2 => some (key, (r2.dropWhile isSpace).takeWhile (fun c => c != '\n'))
      | _ => none
  | _ => none

/-- Function `_parse_comment`: `Metadata` when the metadata regex matches and the key
is recognized, else `Comment` of the text after `!`, stripped.  The source
never raises here. -/
def _parse_comment (text : List Char) : Record :=
  match metadataMatch text with
  | some (k, v) => if k ∈ METADATA_KEYS then .Metadata k v else .Comment (strip (text.drop 1))
  | none => .Comment (strip (text.drop 1))

/-- Case-insensitive literal matching for `re.I`: returns the actually
matched characters (original casing) and the remainder. -/
def dropCi : List Char → List Char → Option (List Char × List Char)
  | [], s => some ([], s)
  | _ :: _, [] => none
  | l :: ls, c :: cs =>
    if c.toLower == l.toLower then
      match dropCi ls cs with
      | some (m, rest) => some (c :: m, rest)
      | none => none
    else none

/-- Matching `HEADER_REGEXP.match(text)` for
`r'\[(Adblock(?:\s*Plus\s*[\d\.]+?)?)\]'` with `re.I`: `[`, `Adblock`
(case-insensitive), then preferably the optional part (greedy whitespace,
`Plus`, greedy whitespace, a nonempty lazy run of digits and dots that must
be followed directly by `]`), else the fallback requiring `]` directly.
Group 1 keeps the original casing.  As `re.match` is not anchored at the
end, any remainder after `]` is ignored. -/
def headerMatch : List Char → Option (List Char)
  | '[' :: r =>
    match dropCi ("Adblock".data) r with
    | none => none
    | some (a7, r1) =>
      let withPlus : Option (List Char) :=
        let ws1 := r1.takeWhile isSpace
        match dropCi ("Plus".data) (r1.drop ws1.length) with
        | none => none
        | some (p4, r2) =>
          let ws2 := r2.takeWhile isSpace
          let v := (r2.drop ws2.length).takeWhile isDigitDot
          if v = [] then none
          else
            match (r2.drop ws2.length).drop v.length with
            | ']' :: _ => some (a7 ++ ws1 ++ p4 ++ ws2 ++ v)
            | _ => none
      match withPlus with
      | some g => some g
      | none =>
        match r1 with
        | ']' :: _ => some a7
        | _ => none
  | _ => none

/-- Function `_parse_header`: `Header` of group 1 on a match, else
`ParseError('Malformed header', text)`. -/
def _parse_header (text : List Char) : Except PyExn Record :=
  match headerMatch text with
  | some v => .ok (.Header v)
  | none => .error (.parseError ("Malformed header".data) text)

/-- Index of the last `'%'` in a list, if any. -/
def lastPercent : List Char → Option Nat
  | [] => none
  | c :: rest =>
    match lastPercent rest with
    | some k => some (k + 1)
    | none => if c == '%' then some 0 else none

/-- One attempt of `(.+)%` at the current position: `.+` is greedy and does
not cross a `'\n'`, so the `%` is placed at the last `'%'` of the
newline-free prefix, and the capture (which must be nonempty) is everything
before it. -/
def includeCapture (r : List Char) : Option (List Char) :=
  match lastPercent (r.takeWhile (fun c => c != '\n')) with
  | some k => if k ≥ 1 then some ((r.takeWhile (fun c => c != '\n')).take k) else none
  | none => none

/-- Backtracking over the greedy `\s+` of `INCLUDE_REGEXP`: `wsRev` is the
reversed whitespace run still assigned to `\s+`; on failure of `(.+)%` the
last whitespace character is returned to the following `.+`.  `\s+` keeps at
least one character. -/
def includeBacktrack : List Char → List Char → Option (List Char)
  | [], _ => none
  | c :: wsRest, r =>
    match includeCapture r with
    | some t => some t
    | none => includeBacktrack wsRest (c :: r)

/-- Matching `INCLUDE_REGEXP.match(text)` for `r'%include\s+(.+)%'`: the literal
`%include`, one-or-more whitespace (greedy), then the greedy `(.+)%`. -/
def includeMatch (s : List Char) : Option (List Char) :=
  if startswith s ("%include".data) then
    includeBacktrack ((s.drop 8).takeWhile isSpace).reverse
      ((s.drop 8).drop ((s.drop 8).takeWhile isSpace).length)
  else none

/-- Function `_parse_instruction`: `Include` of group 1 on a match, else
`ParseError('Unrecognized instruction', text)`. -/
def _parse_instruction (text : List Char) : Except PyExn Record :=
  match includeMatch text with
  | some t => .ok (.Include t)
  | none => .error (.parseError ("Unrecognized instruction".data) text)

/-- One parenthesized attribute rule as captured by `OLD_ATTRS_REGEXP`
`r'\(([\w\-]+)(?:([$^*]?=)([^\(\)"]*))?\)'`: group 1 is `name`, and `opval`
holds groups 2 and 3 (the operator ending in `=`, and the value) when the
optional part matched. -/
structure AttrRule where
  name : List Char
  opval : Option (List Char × List Char)
deriving DecidableEq

/-- Regex class `[^\(\)"]` of an attribute-rule value. -/
def attrValueChar (c : Char) : Bool :=
  c != '(' && c != ')' && c != '"'

/-- The tail `[$^*]?=[^\(\)"]*\)` of an attribute rule after its name: the
greedy value run, then `)`.  Returns the consumed text, the rule, and the
remainder. -/
def parseAttrValue (name op r2 : List Char) : Option (List Char × AttrRule × List Char) :=
  match r2.drop (r2.takeWhile attrValueChar).length with
  | ')' :: r3 =>
    some ('(' :: (name ++ op ++ r2.takeWhile attrValueChar ++ [')']),
      ⟨name, some (op, r2.takeWhile attrValueChar)⟩, r3)
  | _ => none

/-- Matching of one attribute rule at the current position: `(`, a nonempty
greedy `[\w\-]+` name, optionally `[$^*]?=` and a greedy `[^\(\)"]*` value,
then `)`.  Returns the consumed text, the rule, and the remainder.  The
pattern is deterministic: the name cannot contain the operator characters
and the value cannot contain `)`. -/
def parseAttrRule (s : List Char) : Option (List Char × AttrRule × List Char) :=
  match s with
  | '(' :: r =>
    if r.takeWhile isWordDash = [] then none
    else
      match r.drop (r.takeWhile isWordDash).length with
      | ')' :: r2 =>
        some ('(' :: (r.takeWhile isWordDash ++ [')']), ⟨r.takeWhile isWordDash, none⟩, r2)
      | '=' :: r2 => parseAttrValue (r.takeWhile isWordDash) ['='] r2
      | '$' :: '=' :: r2 => parseAttrValue (r.takeWhile isWordDash) ['$', '='] r2
      | '^' :: '=' :: r2 => parseAttrValue (r.takeWhile isWordDash) ['^', '='] r2
      | '*' :: '=' :: r2 => parseAttrValue (r.takeWhile isWordDash) ['*', '='] r2
      | _ => none
  | _ => none

/-- The greedy `((?:\(...\))*)` of `HFILTER_REGEXP` followed by `$`: zero or
more attribute rules that must consume the whole remainder; returns the raw
captured text (group 4).  Each rule consumes at least three characters, so a
fuel of the input length is never exhausted. -/
def matchRulesStar : Nat → List Char → Option (List Char)
  | _, [] => some []
  | 0, _ :: _ => none
  | fuel + 1, s =>
    match parseAttrRule s with
    | some (consumed, _, rem) =>
      match matchRulesStar fuel rem with
      | some g4 => some (consumed ++ g4)
      | none => none
    | none => none

/-- The part of `HFILTER_REGEXP` after the optional `@`: either the
tag-and-rules branch `([\w\-]+|\*)((?:\(...\))*)` (groups 3 and 4) or the
CSS branch `#([^\x7b\x7d]+)` (group 5). -/
inductive HBody where
  | tagRules (tag : List Char) (rules : List Char)
  | cssSel (selector : List Char)
deriving DecidableEq

/-- Branch `([\w\-]+|\*)((?:\(...\))*)` anchored to the end: group 3 is the
greedy nonempty word (the alternation tries `[\w\-]+` before `*`), group 4
the raw rule text. -/
def matchTagRules (r : List Char) : Option (List Char × List Char) :=
  let tag := r.takeWhile isWordDash
  if tag = [] then
    match r with
    | '*' :: r1 =>
      match matchRulesStar r1.length r1 with
      | some g4 => some (['*'], g4)
      | none => none
    | _ => none
  else
    match matchRulesStar (r.drop tag.length).length (r.drop tag.length) with
    | some g4 => some (tag, g4)
    | none => none

/-- Branch `#([^\x7b\x7d]+)` anchored to the end: a second `#`, then group 5
= the nonempty remainder, which may not contain braces. -/
def hfilterCssSel : List Char → Option HBody
  | c :: r5 =>
    if c == '#' && !r5.isEmpty && r5.all (fun a => a != '\x7b' && a != '\x7d') then
      some (.cssSel r5)
    else none
  | [] => none

/-- The alternation `(?:([\w\-]+|\*)((?:\(...\))*)|#([^\x7b\x7d]+))$`: the
tag-and-rules branch is tried first. -/
def hfilterBody (r : List Char) : Option HBody :=
  match matchTagRules r with
  | some (tag, g4) => some (.tagRules tag g4)
  | none => hfilterCssSel r

/-- A successful match of `HFILTER_REGEXP`: group 1 (raw domain list),
whether group 2 (`@`) matched, and the matched alternation branch. -/
structure HMatch where
  domainsRaw : List Char
  hasAt : Bool
  body : HBody
deriving DecidableEq

/-- The optional `(\@)?` and the following alternation: taking the `@` is
preferred; if the rest then fails, the `@` is given back (in which case the
alternation always fails anyway, since `@` starts neither branch). -/
def hfilterAfterHash (rest : List Char) : Option (Bool × HBody) :=
  match rest with
  | c :: r2 =>
    if c == '@' then
      match hfilterBody r2 with
      | some b => some (true, b)
      | none =>
        match hfilterBody rest with
        | some b => some (false, b)
        | none => none
    else
      match hfilterBody rest with
      | some b => some (false, b)
      | none => none
  | [] =>
    match hfilterBody rest with
    | some b => some (false, b)
    | none => none

/-- The lazy `^([^\/\*\|\@"!]*?)#` of `HFILTER_REGEXP`: the shortest domain
prefix is preferred; on failure of the remainder the `#` itself may be
absorbed into group 1 (the class `[^\/\*\|\@"!]` admits `#`).  `pre` is the
reversed group 1 accumulated so far. -/
def hfilterScan (pre : List Char) : List Char → Option HMatch
  | [] => none
  | c :: rest =>
    if c == '#' then
      match hfilterAfterHash rest with
      | some (a, b) => some ⟨pre.reverse, a, b⟩
      | none => hfilterScan (c :: pre) rest
    else if isDomainChar c then hfilterScan (c :: pre) rest
    else none

/-- Matching `HFILTER_REGEXP.match(text)`
for `r'^([^\/\*\|\@"!]*?)#(\@)?(?:([\w\-]+|\*)((?:\([\w\-]+(?:[$^*]?=[^\(\)"]*)?\))*)|#([^\x7b\x7d]+))$'`. -/
def hfilterMatch (text : List Char) : Option HMatch :=
  hfilterScan [] text

/-- Matching `OLD_ATTRS_REGEXP.finditer(attr_rules)`: the non-overlapping attribute
rules found left to right; a position where no rule starts is skipped.  Each
found rule consumes at least one character, so a fuel of the input length is
never exhausted. -/
def oldAttrsFindIter : Nat → List Char → List AttrRule
  | 0, _ => []
  | _ + 1, [] => []
  | fuel + 1, s =>
    match parseAttrRule s with
    | some (_, rule, rem) => rule :: oldAttrsFindIter fuel rem
    | none =>
      match s with
      | [] => []
      | _ :: rest => oldAttrsFindIter fuel rest

/-- Wrapper for `OLD_ATTRS_REGEXP.finditer` with the fuel supplied. -/
def oldAttrsFind (s : List Char) : List AttrRule :=
  oldAttrsFindIter s.length s

/-- Rendering of an operator rule: bracket, name, operator, quoted value,
bracket, following the format string of the source. -/
def renderConstraint (m : AttrRule) : List Char :=
  match m.opval with
  | some (op, v) => ("[".data) ++ m.name ++ op ++ ("\"".data) ++ v ++ ("\"]".data)
  | none => []

/-- The `for match in OLD_ATTRS_REGEXP.finditer(...)` loop of
`_tag_and_rules_to_selector`: accumulates `constraints_list` and
`class_or_id`; a second bare rule raises
`ParseError(text, 'Duplicate id in attriute rules')` (the source passes the
filter text as the first positional argument, which is `error`). -/
def selectorScan (text : List Char) :
    List AttrRule → List (List Char) → Option (List Char) →
    Except PyExn (List (List Char) × Option (List Char))
  | [], cs, cid => .ok (cs, cid)
  | m :: rest, cs, cid =>
    match m.opval with
    | some _ => selectorScan text rest (cs ++ [renderConstraint m]) cid
    | none =>
      match cid with
      | none => selectorScan text rest cs (some m.name)
      | some _ => .error (.parseError text ("Duplicate id in attriute rules".data))

/-- The last two returns of `_tag_and_rules_to_selector`: `tag` and
`constraints` are truthy only when nonempty; the final raise is
`ParseError(text, 'Filter matches everything')` (with the filter text as
the first positional argument, which is `error`). -/
def selectorTail (text tag constraints : List Char) : Except PyExn (List Char) :=
  if tag ≠ [] ∨ constraints ≠ [] then .ok (tag ++ constraints)
  else .error (.parseError text ("Filter matches everything".data))

/-- The returns at the end of `_tag_and_rules_to_selector` after the loop:
`class_or_id` is truthy only when present and nonempty. -/
def selectorFinish (text tag constraints : List Char) :
    Option (List Char) → Except PyExn (List Char)
  | some c =>
    if c ≠ [] then
      .ok (tag ++ (".".data) ++ c ++ constraints ++ (",".data) ++ tag ++ ("#".data) ++ c ++ constraints)
    else selectorTail text tag constraints
  | none => selectorTail text tag constraints

/-- Function `_tag_and_rules_to_selector`; a `*` tag becomes the empty tag. -/
def _tag_and_rules_to_selector (text tag attr_rules : List Char) : Except PyExn (List Char) :=
  match selectorScan text (oldAttrsFind attr_rules) [] none with
  | .error e => .error e
  | .ok (cs, cid) => selectorFinish text (if tag = ("*".data) then [] else tag) cs.flatten cid

/-- Function `_parse_hiding_filter`: in the source the selector parameter
is group 5,
which is `None` exactly when the tag-and-rules branch of the alternation
matched (and nonempty otherwise, as group 5 matches one-or-more characters),
so the `if not params['selector']` test selects the matched branch. -/
def _parse_hiding_filter (text : List Char) (m : HMatch) : Except PyExn Record :=
  match m.body with
  | .cssSel s =>
    .ok (.HidingFilter text m.hasAt s ((pySplit ',' m.domainsRaw).filter (fun d => d ≠ [])))
  | .tagRules tag rules =>
    match _tag_and_rules_to_selector text tag rules with
    | .ok sel =>
      .ok (.HidingFilter text m.hasAt sel ((pySplit ',' m.domainsRaw).filter (fun d => d ≠ [])))
    | .error e => .error e

/-- Matching of one option token `~?[\w\-]+(?:=[^,\s]+)?` against a whole
comma-free segment. -/
def optTokenOk (seg : List Char) : Bool :=
  let s1 := match seg with
    | '~' :: r => r
    | _ => seg
  let name := s1.takeWhile isWordDash
  if name = [] then false
  else
    match s1.drop name.length with
    | [] => true
    | '=' :: v => !v.isEmpty && v.all (fun c => c != ',' && !(isSpace c))
    | _ => false

/-- The option-list part of `BFILTER_OPTIONS_REGEXP` anchored to the end of
the string: since neither an option name nor a value may contain a comma,
the comma-separated segments must each match one token. -/
def matchesOptList (s : List Char) : Bool :=
  (pySplit ',' s).all optTokenOk

/-- Matching `BFILTER_OPTIONS_REGEXP.search(text)` for
`r'\$(~?[\w\-]+(?:=[^,\s]+)?(?:,~?[\w\-]+(?:=[^,\s]+)?)*)$'`: the leftmost
`$` whose remainder matches the option list to the end of the string wins;
returns `text[:match.start(0)]` and group 1. -/
def bfilterSearch (pre : List Char) : List Char → Option (List Char × List Char)
  | [] => none
  | c :: rest =>
    if c == '$' && matchesOptList rest then some (pre.reverse, rest)
    else bfilterSearch (c :: pre) rest

/-- Python `dict` assignment `d[k] = v`: an existing key keeps its position
and gets the new value, a new key is appended. -/
def dictSet (d : List (List Char × OptValue)) (k : List Char) (v : OptValue) :
    List (List Char × OptValue) :=
  if d.any (fun p => p.1 = k) then d.map (fun p => if p.1 = k then (k, v) else p)
  else d ++ [(k, v)]

/-- The `if`/`elif`/`else` chain of `_parse_filter_options` that computes
`name, value` from one option token: a token with `=` splits once into name
and string value; else a `~` prefix gives value `False`; else value `True`. -/
def optNameValue (option : List Char) : List Char × OptValue :=
  if option.contains '=' then
    let name := option.takeWhile (fun c => c != '=')
    (name, .str (option.drop (name.length + 1)))
  else
    match option with
    | '~' :: r => (r, .bool false)
    | _ => (option, .bool true)

/-- The loop of `_parse_filter_options` over `options.split(',')`.  For a
`domain`/`sitekey` name the source runs `value.split('|')`; when the token
had no `=`, `value` is a `bool` and `bool.split` raises `AttributeError`. -/
def optLoop : List (List Char) → List (List Char × OptValue) →
    Except PyExn (List (List Char × OptValue))
  | [], d => .ok d
  | option :: rest, d =>
    match optNameValue option with
    | (name, value) =>
      if name = ("domain".data) ∨ name = ("sitekey".data) then
        match value with
        | .str s => optLoop rest (dictSet d name (.strList (pySplit '|' s)))
        | _ => .error .attributeError
      else optLoop rest (dictSet d name value)

/-- Function `_parse_filter_options`; its `text` parameter is never read in the
source (no raise in this function mentions it). -/
def _parse_filter_options (_text options : List Char) : Except PyExn (List (List Char × OptValue)) :=
  optLoop (pySplit ',' options) []

/-- The body of `_parse_blocking_filter` after the exception prefix has
been handled: `text` is the full expression, `t` the text with a `@@`
prefix stripped, `exc` whether it was present.  The options search runs
only when a `$` is present. -/
def blockingParams (text t : List Char) (exc : Bool) : Except PyExn Record :=
  match (if t.contains '$' then bfilterSearch [] t else none) with
  | some (pat, options) =>
    match _parse_filter_options t options with
    | .ok parsed => .ok (.BlockingFilter text exc parsed pat)
    | .error e => .error e
  | none => .ok (.BlockingFilter text exc [] t)

/-- Function `_parse_blocking_filter`: `expression` keeps the full text including a
stripped `@@` prefix. -/
def _parse_blocking_filter (text : List Char) : Except PyExn Record :=
  if startswith text ("@@".data) then blockingParams text (text.drop 2) true
  else blockingParams text text false

/-- Function `_parse_filter`: the hiding grammar is attempted only when the text
contains `#`; on no match the text is a blocking filter. -/
def _parse_filter (text : List Char) : Except PyExn Record :=
  match (if text.contains '#' then hfilterMatch text else none) with
  | some m => _parse_hiding_filter text m
  | none => _parse_blocking_filter text

/-- The `if`/`elif` dispatch of `parse_line` on the stripped content. -/
def classify (content : List Char) : Except PyExn Record :=
  if content = [] then .ok .EmptyLine
  else if startswith content ("!".data) then .ok (_parse_comment content)
  else if startswith content ("%".data) && endswith content ("%".data) then
    _parse_instruction content
  else if startswith content ("[".data) && endswith content ("]".data) then
    _parse_header content
  else _parse_filter content

/-- Function `parse_line`: strip, dispatch, then
`assert line.to_string().replace(' ', '') == content.replace(' ', '')`. -/
def parse_line (line_text : List Char) : Except PyExn Record :=
  match classify (strip line_text) with
  | .error e => .error e
  | .ok line =>
    if removeSpaces (to_string line) = removeSpaces (strip line_text) then .ok line
    else .error .assertionError

/-- Observable outcome of one `next()` call on the `parse_filterlist`
generator. -/
inductive GenStep where
  | yielded (r : Record)
  | raised (e : PyExn)
  | stopIteration
deriving DecidableEq

/-- State of the `parse_filterlist` generator: suspended with the remaining
input lines, or finalized.  A Python generator whose frame an exception
propagates out of is finalized, and every later `next()` raises
`StopIteration`. -/
inductive GenState where
  | active (lines : List (List Char))
  | closed
deriving DecidableEq

/-- Calling `parse_filterlist(lines)` builds the suspended generator. -/
def parse_filterlist (lines : List (List Char)) : GenState :=
  .active lines

/-- One `next()` call on the generator `for line in lines: yield
parse_line(line)`: a successful parse is yielded and the generator stays
live; a `ParseError` propagates out and finalizes the generator; an
exhausted or finalized generator raises `StopIteration`. -/
def filterlistNext : GenState → GenStep × GenState
  | .closed => (.stopIteration, .closed)
  | .active [] => (.stopIteration, .closed)
  | .active (l :: rest) =>
    match parse_line l with
    | .ok r => (.yielded r, .active rest)
    | .error e => (.raised e, .closed)

/-! Helper lemmas about whitespace removal. -/

theorem removeWS_removeSpaces (x : List Char) : removeWS (removeSpaces x) = removeWS x := by
  unfold removeWS removeSpaces
  rw [List.filter_filter]
  apply List.filter_congr
  intro c _
  by_cases h : c = ' '
  · subst h; decide
  · simp [bne_iff_ne, h]

theorem removeWS_congr_of_removeSpaces {a b : List Char}
    (h : removeSpaces a = removeSpaces b) : removeWS a = removeWS b := by
  rw [← removeWS_removeSpaces a, ← removeWS_removeSpaces b, h]

theorem removeWS_dropWhile (l : List Char) :
    removeWS (l.dropWhile isSpace) = removeWS l := by
  induction l with
  | nil => rfl
  | cons c rest ih =>
    by_cases hc : isSpace c = true
    · simp [removeWS, List.dropWhile_cons, hc] at ih ⊢
      exact ih
    · simp [removeWS, List.dropWhile_cons, hc]

theorem removeWS_reverse (l : List Char) : removeWS l.reverse = (removeWS l).reverse := by
  unfold removeWS
  exact List.filter_reverse _ _

theorem removeWS_strip (l : List Char) : removeWS (strip l) = removeWS l := by
  unfold strip
  rw [removeWS_reverse, removeWS_dropWhile, removeWS_reverse, List.reverse_reverse,
    removeWS_dropWhile]

/-- C1: for every input line on which `parse_line` returns a record rather
than raising, rendering the record with `to_string` and removing all
whitespace yields the same string as removing all whitespace from the
original line. -/
theorem C1_roundtrip (l : List Char) (r : Record) (h : parse_line l = .ok r) :
    removeWS (to_string r) = removeWS l := by
  unfold parse_line at h
  split at h
  · exact absurd h (by simp)
  · split at h
    · next line _ hif =>
      injection h with h
      subst h
      rw [removeWS_congr_of_removeSpaces hif, removeWS_strip]
    · exact absurd h (by simp)

/-- C1 witness: a concrete successfully parsed line with the round-trip
equality instantiated on it. -/
theorem C1_roundtrip_witness :
    parse_line ("! hi".data) = .ok (.Comment ("hi".data)) ∧
      removeWS (to_string (.Comment ("hi".data))) = removeWS ("! hi".data) :=
  ⟨by decide, C1_roundtrip ("! hi".data) (.Comment ("hi".data)) (by decide)⟩

/-- C2 counterexample: iterating
`["! good line", "%bad line%", "! next line"]` yields a `Comment`, then
raises `UnrecognizedInstruction`; but the exception finalizes the
generator, so the next request raises `StopIteration` instead of yielding
the `Comment` for line 3, contrary to the claim. -/
theorem C2_iterator_counterexample :
    filterlistNext (parse_filterlist
        [("! good line".data), ("%bad line%".data), ("! next line".data)]) =
      (.yielded (.Comment ("good line".data)),
        .active [("%bad line%".data), ("! next line".data)]) ∧
    filterlistNext (.active [("%bad line%".data), ("! next line".data)]) =
      (.raised (.parseError ("Unrecognized instruction".data) ("%bad line%".data)), .closed) ∧
    filterlistNext GenState.closed = (.stopIteration, .closed) ∧
    (filterlistNext GenState.closed).1 ≠ .yielded (.Comment ("next line".data)) := by
  refine ⟨by decide, by decide, by decide, by decide⟩

/-- C2 as amended: a parse failure at line i is raised only when record i is
requested (the outcome of a request depends only on the first remaining
line, so a later bad line cannot disturb an earlier record), but the raised
exception finalizes the generator: the request after the failure yields
`StopIteration`, not the record for line i+1.  On the concrete list the
trace is `Comment`, `UnrecognizedInstruction`, `StopIteration`. -/
theorem C2_iterator_amended :
    (∀ rest : List (List Char),
      filterlistNext (.active (("! good line".data) :: rest)) =
        (.yielded (.Comment ("good line".data)), .active rest)) ∧
    (∀ rest : List (List Char),
      filterlistNext (.active (("%bad line%".data) :: rest)) =
        (.raised (.parseError ("Unrecognized instruction".data) ("%bad line%".data)), .closed)) ∧
    filterlistNext GenState.closed = (.stopIteration, .closed) := by
  refine ⟨fun rest => ?_, fun rest => ?_, by decide⟩
  · show (match parse_line ("! good line".data) with
      | .ok r => (GenStep.yielded r, GenState.active rest)
      | .error e => (GenStep.raised e, GenState.closed)) = _
    rw [show parse_line ("! good line".data) = .ok (.Comment ("good line".data)) from by decide]
  · show (match parse_line ("%bad line%".data) with
      | .ok r => (GenStep.yielded r, GenState.active rest)
      | .error e => (GenStep.raised e, GenState.closed)) = _
    rw [show parse_line ("%bad line%".data) =
      .error (.parseError ("Unrecognized instruction".data) ("%bad line%".data)) from by decide]

/-- C3 counterexample: the blocking-filter line `x$domain` has the bare
`domain` option token, but parsing does not succeed with options entry
`["domain"]` — `value` is the boolean `True` at the split, and
`True.split('|')` raises `AttributeError`. -/
theorem C3_bare_domain_counterexample :
    parse_line ("x$domain".data) = .error .attributeError ∧
      ∀ r : Record, parse_line ("x$domain".data) ≠ .ok r := by
  refine ⟨by decide, fun r h => ?_⟩
  rw [show parse_line ("x$domain".data) = .error .attributeError from by decide] at h
  exact absurd h (by simp)

/-- Processing one option token either raises `AttributeError` or continues
the loop with an updated dictionary. -/
theorem optLoop_step (t : List Char) (rest : List (List Char))
    (d : List (List Char × OptValue)) :
    optLoop (t :: rest) d = .error .attributeError ∨
      ∃ d', optLoop (t :: rest) d = optLoop rest d' := by
  simp only [optLoop]
  rcases hnv : optNameValue t with ⟨name, v⟩
  split
  · cases v with
    | str s => exact Or.inr ⟨_, rfl⟩
    | bool b => exact Or.inl rfl
    | strList l => exact Or.inl rfl
  · exact Or.inr ⟨_, rfl⟩

/-- If the comma-split token list contains a bare `domain` or `~domain`
token, the option loop ends in `AttributeError`. -/
theorem optLoop_bare_domain :
    ∀ (toks : List (List Char)) (d : List (List Char × OptValue)),
      (("domain".data) ∈ toks ∨ ("~domain".data) ∈ toks) →
      optLoop toks d = .error .attributeError := by
  intro toks
  induction toks with
  | nil => intro d h; rcases h with h | h <;> cases h
  | cons t rest ih =>
    intro d h
    by_cases ht : t = ("domain".data) ∨ t = ("~domain".data)
    · rcases ht with ht | ht <;> subst ht <;> rfl
    · have hmem : ("domain".data) ∈ rest ∨ ("~domain".data) ∈ rest := by
        rcases h with h | h
        · rcases List.mem_cons.mp h with he | hr
          · exact absurd (Or.inl he.symm) ht
          · exact Or.inl hr
        · rcases List.mem_cons.mp h with he | hr
          · exact absurd (Or.inr he.symm) ht
          · exact Or.inr hr
      rcases optLoop_step t rest d with hs | ⟨d', hs⟩
      · exact hs
      · rw [hs]; exact ih d' hmem

/-- C3 as amended: a bare `domain` or `~domain` token in the option list is
not rejected as an unrecognized option, but option extraction fails with
`AttributeError` (the boolean option value has no `split`), so the filter
does not parse successfully with a `|`-split of the literal token word. -/
theorem C3_bare_domain_amended (t opts : List Char)
    (h : ("domain".data) ∈ pySplit ',' opts ∨ ("~domain".data) ∈ pySplit ',' opts) :
    _parse_filter_options t opts = .error .attributeError :=
  optLoop_bare_domain (pySplit ',' opts) [] h

/-- C3 witness: a concrete option list with a bare `domain` token. -/
theorem C3_bare_domain_witness :
    (("domain".data) ∈ pySplit ',' ("image,domain".data) ∨
      ("~domain".data) ∈ pySplit ',' ("image,domain".data)) ∧
      _parse_filter_options ("x".data) ("image,domain".data) = .error .attributeError :=
  ⟨by decide, C3_bare_domain_amended ("x".data) ("image,domain".data) (by decide)⟩

/-- C4: the raise sites of `_tag_and_rules_to_selector` pass the filter text
as the first positional argument of `ParseError(error, text)`, so for
`DuplicateIdentifier` and `MatchesEverything` the `error` attribute holds
the filter line and the `text` attribute holds the descriptive reason — the
opposite of the documented layout, which the other raise sites (for example
`Unrecognized instruction`) follow. -/
theorem C4_error_attributes_swapped :
    parse_line ("abc.com#div(foo)(bar)".data) =
      .error (.parseError ("abc.com#div(foo)(bar)".data)
        ("Duplicate id in attriute rules".data)) ∧
    parse_line ("abc.com#*".data) =
      .error (.parseError ("abc.com#*".data) ("Filter matches everything".data)) ∧
    parse_line ("%foo bar%".data) =
      .error (.parseError ("Unrecognized instruction".data) ("%foo bar%".data)) ∧
    ("Duplicate id in attriute rules".data) ≠ ("abc.com#div(foo)(bar)".data) := by
  refine ⟨by decide, by decide, by decide, by decide⟩

/-- C6: a trimmed line starting with `[` and ending with `]` whose
bracketed content does not match the header grammar can still escape the
`MalformedHeader` error: `HEADER_REGEXP` is not anchored at the end, so on
`[Adblock]x]` it matches the prefix `[Adblock]` and the internal round-trip
assertion fails instead.  The two spec examples behave as documented. -/
theorem C6_header_third_outcome :
    parse_line ("[Adblock Plus 1.1]".data) = .ok (.Header ("Adblock Plus 1.1".data)) ∧
    parse_line ("[Adblock 1.1]".data) =
      .error (.parseError ("Malformed header".data) ("[Adblock 1.1]".data)) ∧
    parse_line ("[Adblock]x]".data) = .error .assertionError := by
  refine ⟨by decide, by decide, by decide⟩

/-- C7: the comment path does not always succeed: on `"!\tfoo"` the
extractor strips the tab from the comment text, but the round-trip
assertion only ignores the plain space character, so `parse_line` raises
`AssertionError`.  Ordinary comment and metadata lines succeed. -/
theorem C7_comment_assertion_failure :
    parse_line ("! Block foo".data) = .ok (.Comment ("Block foo".data)) ∧
    parse_line ("! Homepage  :  http://aaa.com/b".data) =
      .ok (.Metadata ("Homepage".data) ("http://aaa.com/b".data)) ∧
    parse_line ("! WrongHeader: something".data) =
      .ok (.Comment ("WrongHeader: something".data)) ∧
    parse_line ("!\tfoo".data) = .error .assertionError := by
  refine ⟨by decide, by decide, by decide, by decide⟩

/-! Helper lemmas for the symbolic evaluation of `parse_line` on include
lines. -/

theorem startswith_append (p s : List Char) : startswith (p ++ s) p = true := by
  induction p with
  | nil => cases s <;> rfl
  | cons c ps ih => simp [startswith, ih]

theorem endswith_singleton (x : List Char) (d : Char) : endswith (x ++ [d]) [d] = true := by
  unfold endswith
  rw [List.reverse_append]
  simp [startswith]

theorem takeWhile_append_all (p : Char → Bool) (l m : List Char)
    (h : ∀ a ∈ l, p a = true) :
    List.takeWhile p (l ++ m) = l ++ List.takeWhile p m := by
  induction l with
  | nil => rfl
  | cons a l ih =>
    have ha : p a = true := h a (List.mem_cons_self a l)
    simp [List.takeWhile_cons, ha, ih (fun x hx => h x (List.mem_cons_of_mem a hx))]

theorem lastPercent_append_percent (t : List Char) :
    lastPercent (t ++ ['%']) = some t.length := by
  induction t with
  | nil => rfl
  | cons a t ih => simp [lastPercent, ih]

theorem strip_of_ends (c d : Char) (m : List Char) (hc : isSpace c = false)
    (hd : isSpace d = false) : strip (c :: (m ++ [d])) = c :: (m ++ [d]) := by
  unfold strip
  rw [show List.dropWhile isSpace (c :: (m ++ [d])) = c :: (m ++ [d]) from by
    simp [List.dropWhile_cons, hc]]
  rw [show (c :: (m ++ [d])).reverse = d :: (m.reverse ++ [c]) from by simp]
  rw [show List.dropWhile isSpace (d :: (m.reverse ++ [c])) = d :: (m.reverse ++ [c]) from by
    simp [List.dropWhile_cons, hd]]
  simp

/-- C5 counterexample: on `%include a%b%` the captured target is `a%b` (the
greedy `(.+)` extends to the last `%`), not the non-greedy capture `a`. -/
theorem C5_include_counterexample :
    parse_line ("%include a%b%".data) = .ok (.Include ("a%b".data)) ∧
      ("a%b".data) ≠ ("a".data) := by
  refine ⟨by decide, by decide⟩

/-- The greedy `(.+)%` applied after the whitespace: the capture runs to the
final `%` even when it contains `%` characters itself. -/
theorem includeCapture_full (c : Char) (t' : List Char)
    (hn : ∀ a ∈ c :: t', (a != '\n') = true) :
    includeCapture ((c :: t') ++ ['%']) = some (c :: t') := by
  unfold includeCapture
  rw [takeWhile_append_all (fun x => x != '\n') (c :: t') ['%'] hn]
  rw [show List.takeWhile (fun x => x != '\n') ['%'] = ['%'] from rfl]
  rw [lastPercent_append_percent (c :: t')]
  show (if (c :: t').length ≥ 1 then some (((c :: t') ++ ['%']).take (c :: t').length)
    else none) = some (c :: t')
  rw [if_pos (show (c :: t').length ≥ 1 from Nat.succ_le_succ (Nat.zero_le t'.length))]
  rw [List.take_left]

/-- C5 as amended: the capture of `INCLUDE_REGEXP` is greedy, not
non-greedy: for every include line `%include` + one space + body + `%`
whose body starts with a non-whitespace character and contains no newline,
the extracted target is the whole body — it extends to the last `%` of the
line (the body may itself contain `%`) instead of stopping at the earliest
one. -/
theorem C5_include_greedy (c : Char) (t' : List Char) (hc : isSpace c = false)
    (hn : ∀ a ∈ c :: t', (a != '\n') = true) :
    parse_line (("%include ".data) ++ ((c :: t') ++ ['%'])) = .ok (.Include (c :: t')) := by
  have harg : (("%include ".data) ++ ((c :: t') ++ ['%'])) =
      '%' :: ((("include ".data) ++ (c :: t')) ++ ['%']) := rfl
  have hstrip : strip (("%include ".data) ++ ((c :: t') ++ ['%'])) =
      ("%include ".data) ++ ((c :: t') ++ ['%']) :=
    strip_of_ends '%' '%' (("include ".data) ++ (c :: t')) (by decide) (by decide)
  have hmatch : includeMatch (("%include ".data) ++ ((c :: t') ++ ['%'])) =
      some (c :: t') := by
    unfold includeMatch
    rw [if_pos (show startswith (("%include ".data) ++ ((c :: t') ++ ['%']))
      (("%include".data)) = true from
      startswith_append ("%include".data) (' ' :: ((c :: t') ++ ['%'])))]
    rw [show ((("%include ".data) ++ ((c :: t') ++ ['%'])).drop 8) =
      ' ' :: (c :: (t' ++ ['%'])) from rfl]
    rw [show List.takeWhile isSpace (' ' :: (c :: (t' ++ ['%']))) =
      ' ' :: List.takeWhile isSpace (c :: (t' ++ ['%'])) from rfl]
    rw [show List.takeWhile isSpace (c :: (t' ++ ['%'])) = [] from by
        rw [List.takeWhile_cons, hc]; rfl]
    show includeBacktrack [' '] (c :: (t' ++ ['%'])) = some (c :: t')
    unfold includeBacktrack
    rw [show (c :: (t' ++ ['%'])) = ((c :: t') ++ ['%']) from rfl,
      includeCapture_full c t' hn]
  have hcls : classify (("%include ".data) ++ ((c :: t') ++ ['%'])) =
      .ok (.Include (c :: t')) := by
    unfold classify
    rw [if_neg (show ¬((("%include ".data) ++ ((c :: t') ++ ['%'])) = []) from
      fun hh => List.noConfusion (harg ▸ hh))]
    rw [if_neg (show ¬(startswith (("%include ".data) ++ ((c :: t') ++ ['%']))
      (("!".data)) = true) from fun h => Bool.false_ne_true h)]
    rw [if_pos (show (startswith (("%include ".data) ++ ((c :: t') ++ ['%'])) (("%".data)) &&
        endswith (("%include ".data) ++ ((c :: t') ++ ['%'])) (("%".data))) = true from by
      rw [show endswith (("%include ".data) ++ ((c :: t') ++ ['%'])) (("%".data)) = true from
        endswith_singleton ((("%include ".data) ++ (c :: t'))) '%']
      rfl)]
    unfold _parse_instruction
    rw [hmatch]
  unfold parse_line
  rw [hstrip, hcls]
  show (if removeSpaces (to_string (.Include (c :: t'))) =
      removeSpaces (("%include ".data) ++ ((c :: t') ++ ['%'])) then
      Except.ok (Record.Include (c :: t')) else Except.error PyExn.assertionError) =
    Except.ok (Record.Include (c :: t'))
  rw [if_pos (show removeSpaces (to_string (.Include (c :: t'))) =
    removeSpaces (("%include ".data) ++ ((c :: t') ++ ['%'])) from rfl)]

/-- C5 witness: the amended statement instantiated on a body that itself
contains a `%`. -/
theorem C5_include_greedy_witness :
    isSpace 'a' = false ∧ (∀ a ∈ ("a%b".data), (a != '\n') = true) ∧
      parse_line (("%include ".data) ++ (("a%b".data) ++ ['%'])) =
        .ok (.Include ("a%b".data)) :=
  ⟨by decide, by decide, C5_include_greedy 'a' ("%b".data) (by decide) (by decide)⟩

/-! Helper lemmas for the legacy attribute-to-selector conversion. -/

/-- Names of the bare (class-or-id) rules of a rule list, in order. -/
def bareNames (ms : List AttrRule) : List (List Char) :=
  (ms.filter (fun m => m.opval.isNone)).map (fun m => m.name)

/-- Rendered `[name<op>"value"]` constraints of the operator rules of a rule
list, in source order. -/
def constraintsOf (ms : List AttrRule) : List (List Char) :=
  (ms.filter (fun m => m.opval.isSome)).map renderConstraint

theorem selectorScan_no_bare (text : List Char) :
    ∀ (ms : List AttrRule) (cs : List (List Char)) (cid0 : Option (List Char)),
      bareNames ms = [] →
      selectorScan text ms cs cid0 = .ok (cs ++ constraintsOf ms, cid0) := by
  intro ms
  induction ms with
  | nil => intro cs cid0 _; simp [selectorScan, constraintsOf]
  | cons m rest ih =>
    intro cs cid0 h
    cases hm : m.opval with
    | some ov =>
      have hb : bareNames rest = [] := by
        simpa [bareNames, List.filter_cons, hm] using h
      have hc : constraintsOf (m :: rest) = renderConstraint m :: constraintsOf rest := by
        simp [constraintsOf, List.filter_cons, hm]
      rw [show selectorScan text (m :: rest) cs cid0 =
        selectorScan text rest (cs ++ [renderConstraint m]) cid0 from by
          simp only [selectorScan, hm]]
      rw [ih _ _ hb, hc]
      simp
    | none =>
      exfalso
      have hs : bareNames (m :: rest) = m.name :: bareNames rest := by
        simp [bareNames, List.filter_cons, hm]
      rw [hs] at h
      cases h

theorem selectorScan_one_bare (text : List Char) :
    ∀ (ms : List AttrRule) (cs : List (List Char)) (cid : List Char),
      bareNames ms = [cid] →
      selectorScan text ms cs none = .ok (cs ++ constraintsOf ms, some cid) := by
  intro ms
  induction ms with
  | nil => intro cs cid h; cases h
  | cons m rest ih =>
    intro cs cid h
    cases hm : m.opval with
    | some ov =>
      have hb : bareNames rest = [cid] := by
        simpa [bareNames, List.filter_cons, hm] using h
      have hc : constraintsOf (m :: rest) = renderConstraint m :: constraintsOf rest := by
        simp [constraintsOf, List.filter_cons, hm]
      rw [show selectorScan text (m :: rest) cs none =
        selectorScan text rest (cs ++ [renderConstraint m]) none from by
          simp only [selectorScan, hm]]
      rw [ih _ _ hb, hc]
      simp
    | none =>
      have hs : bareNames (m :: rest) = m.name :: bareNames rest := by
        simp [bareNames, List.filter_cons, hm]
      rw [hs] at h
      injection h with h1 h2
      have hc : constraintsOf (m :: rest) = constraintsOf rest := by
        simp [constraintsOf, List.filter_cons, hm]
      rw [show selectorScan text (m :: rest) cs none =
        selectorScan text rest cs (some m.name) from by
          simp only [selectorScan, hm]]
      rw [selectorScan_no_bare text rest cs (some m.name) h2, hc, h1]

theorem parseAttrValue_name (name op r2 co : List Char) (rule : AttrRule) (rem : List Char)
    (h : parseAttrValue name op r2 = some (co, rule, rem)) : rule.name = name := by
  unfold parseAttrValue at h
  split at h
  · injection h with h
    injection h with h1 h
    injection h with h2 h3
    rw [← h2]
  · exact absurd h (by simp)

theorem parseAttrRule_name (s co : List Char) (rule : AttrRule) (rem : List Char)
    (h : parseAttrRule s = some (co, rule, rem)) : rule.name ≠ [] := by
  unfold parseAttrRule at h
  split at h
  · next r =>
    split at h
    · exact absurd h (by simp)
    · next hne =>
      split at h
      · injection h with h
        injection h with h1 h
        injection h with h2 h3
        rw [← h2]
        exact hne
      · rw [parseAttrValue_name _ _ _ _ _ _ h]; exact hne
      · rw [parseAttrValue_name _ _ _ _ _ _ h]; exact hne
      · rw [parseAttrValue_name _ _ _ _ _ _ h]; exact hne
      · rw [parseAttrValue_name _ _ _ _ _ _ h]; exact hne
      · exact absurd h (by simp)
  · exact absurd h (by simp)

theorem oldAttrsFindIter_names :
    ∀ (fuel : Nat) (s : List Char) (m : AttrRule),
      m ∈ oldAttrsFindIter fuel s → m.name ≠ [] := by
  intro fuel
  induction fuel with
  | zero => intro s m hm; exact absurd hm (by simp [oldAttrsFindIter])
  | succ fuel ih =>
    intro s m hm
    cases s with
    | nil => exact absurd hm (by simp [oldAttrsFindIter])
    | cons c rest =>
      rw [show oldAttrsFindIter (fuel + 1) (c :: rest) =
        (match parseAttrRule (c :: rest) with
          | some (_, rule, rem) => rule :: oldAttrsFindIter fuel rem
          | none => oldAttrsFindIter fuel rest) from rfl] at hm
      cases hp : parseAttrRule (c :: rest) with
      | some v =>
        rw [hp] at hm
        rcases v with ⟨co, rule, rem⟩
        rcases List.mem_cons.mp hm with he | hr
        · exact he ▸ parseAttrRule_name (c :: rest) co rule rem hp
        · exact ih rem m hr
      | none =>
        rw [hp] at hm
        exact ih rest m hm

theorem oldAttrsFind_names (s : List Char) (m : AttrRule) (hm : m ∈ oldAttrsFind s) :
    m.name ≠ [] :=
  oldAttrsFindIter_names s.length s m hm

/-- C8: a legacy tag/attribute list with exactly one bare rule converts to
the two comma-separated alternatives `tag.<id><constraints>` and
`tag#<id><constraints>` with the operator constraints rendered in source
order; concretely, `abc.com#div(foo)(name=bar)(value=baz)` parses to a
`HidingFilter` with the documented selector. -/
theorem C8_legacy_one_bare :
    (∀ (text tag rules cid : List Char),
      bareNames (oldAttrsFind rules) = [cid] →
      _tag_and_rules_to_selector text tag rules =
        .ok ((if tag = ("*".data) then [] else tag) ++ (".".data) ++ cid ++
          (constraintsOf (oldAttrsFind rules)).flatten ++ (",".data) ++
          (if tag = ("*".data) then [] else tag) ++ ("#".data) ++ cid ++
          (constraintsOf (oldAttrsFind rules)).flatten)) ∧
    parse_line ("abc.com#div(foo)(name=bar)(value=baz)".data) =
      .ok (.HidingFilter ("abc.com#div(foo)(name=bar)(value=baz)".data) false
        (("div.foo[name=\"bar\"][value=\"baz\"],div#foo[name=\"bar\"][value=\"baz\"]").data)
        [("abc.com".data)]) := by
  constructor
  · intro text tag rules cid h
    have hcid : cid ≠ [] := by
      have hmem : cid ∈ bareNames (oldAttrsFind rules) := by
        rw [h]; exact List.mem_singleton_self cid
      obtain ⟨m, hm, hname⟩ := List.mem_map.mp hmem
      exact hname ▸ oldAttrsFind_names rules m (List.mem_of_mem_filter hm)
    unfold _tag_and_rules_to_selector
    rw [selectorScan_one_bare text (oldAttrsFind rules) [] cid h]
    show selectorFinish text (if tag = ("*".data) then [] else tag)
      (constraintsOf (oldAttrsFind rules)).flatten (some cid) = _
    simp only [selectorFinish]
    rw [if_pos hcid]
  · decide

/-- C8 witness: the general statement instantiated on the rule list of the
concrete filter. -/
theorem C8_legacy_one_bare_witness :
    bareNames (oldAttrsFind ("(foo)(name=bar)(value=baz)".data)) = [("foo".data)] ∧
      _tag_and_rules_to_selector ("abc.com#div(foo)(name=bar)(value=baz)".data)
        ("div".data) ("(foo)(name=bar)(value=baz)".data) =
        .ok ((if ("div".data) = ("*".data) then [] else ("div".data)) ++ (".".data) ++
          ("foo".data) ++
          (constraintsOf (oldAttrsFind ("(foo)(name=bar)(value=baz)".data))).flatten ++
          (",".data) ++ (if ("div".data) = ("*".data) then [] else ("div".data)) ++
          ("#".data) ++ ("foo".data) ++
          (constraintsOf (oldAttrsFind ("(foo)(name=bar)(value=baz)".data))).flatten) :=
  ⟨by decide, C8_legacy_one_bare.1 ("abc.com#div(foo)(name=bar)(value=baz)".data)
    ("div".data) ("(foo)(name=bar)(value=baz)".data) ("foo".data) (by decide)⟩

/-! Shape lemmas: which record constructors each extractor can return. -/

theorem _parse_comment_shape (t : List Char) :
    (∃ k v, _parse_comment t = .Metadata k v) ∨ (∃ c, _parse_comment t = .Comment c) := by
  unfold _parse_comment
  rcases hm : metadataMatch t with _ | ⟨k, v⟩ <;> simp only [hm]
  · exact Or.inr ⟨_, rfl⟩
  · by_cases hk : k ∈ METADATA_KEYS
    · rw [if_pos hk]; exact Or.inl ⟨k, v, rfl⟩
    · rw [if_neg hk]; exact Or.inr ⟨_, rfl⟩

theorem _parse_instruction_ok (t : List Char) (r : Record)
    (h : _parse_instruction t = .ok r) : ∃ x, r = .Include x := by
  unfold _parse_instruction at h
  rcases hm : includeMatch t with _ | x <;> rw [hm] at h
  · exact absurd h (by simp)
  · injection h with h; exact ⟨x, h.symm⟩

theorem _parse_header_ok (t : List Char) (r : Record)
    (h : _parse_header t = .ok r) : ∃ v, r = .Header v := by
  unfold _parse_header at h
  rcases hm : headerMatch t with _ | v <;> rw [hm] at h
  · exact absurd h (by simp)
  · injection h with h; exact ⟨v, h.symm⟩

theorem blockingParams_ok (text t : List Char) (exc : Bool) (r : Record)
    (h : blockingParams text t exc = .ok r) :
    ∃ o p, r = .BlockingFilter text exc o p := by
  unfold blockingParams at h
  split at h
  · split at h
    · injection h with h; exact ⟨_, _, h.symm⟩
    · exact absurd h (by simp)
  · injection h with h; exact ⟨_, _, h.symm⟩

theorem _parse_blocking_ok (t : List Char) (r : Record)
    (h : _parse_blocking_filter t = .ok r) :
    ∃ x o p, r = .BlockingFilter t x o p := by
  unfold _parse_blocking_filter at h
  split at h
  · obtain ⟨o, p, hr⟩ := blockingParams_ok _ _ _ _ h; exact ⟨_, o, p, hr⟩
  · obtain ⟨o, p, hr⟩ := blockingParams_ok _ _ _ _ h; exact ⟨_, o, p, hr⟩

/-! Nonemptiness of the selector of every successfully parsed hiding
filter. -/

theorem selectorTail_ok_ne_nil (text tag constraints sel : List Char)
    (h : selectorTail text tag constraints = .ok sel) : sel ≠ [] := by
  unfold selectorTail at h
  split at h
  · next hg =>
    injection h with h
    subst h
    intro hn
    rcases hg with hg | hg
    · exact hg (List.append_eq_nil.mp hn).1
    · exact hg (List.append_eq_nil.mp hn).2
  · exact absurd h (by simp)

theorem selectorFinish_ok_ne_nil (text tag constraints : List Char)
    (cid : Option (List Char)) (sel : List Char)
    (h : selectorFinish text tag constraints cid = .ok sel) : sel ≠ [] := by
  cases cid with
  | none => exact selectorTail_ok_ne_nil _ _ _ _ h
  | some c =>
    simp only [selectorFinish] at h
    split at h
    · injection h with h
      subst h
      intro hn
      have hl := congrArg List.length hn
      simp [List.length_append] at hl
    · exact selectorTail_ok_ne_nil _ _ _ _ h

theorem tag_rules_selector_ne_nil (text tag rules sel : List Char)
    (h : _tag_and_rules_to_selector text tag rules = .ok sel) : sel ≠ [] := by
  unfold _tag_and_rules_to_selector at h
  cases hs : selectorScan text (oldAttrsFind rules) [] none with
  | error e => rw [hs] at h; exact absurd h (by simp)
  | ok v =>
    rw [hs] at h
    rcases v with ⟨cs, cid⟩
    exact selectorFinish_ok_ne_nil _ _ _ _ _ h

theorem hfilterCssSel_ne_nil (r s0 : List Char)
    (h : hfilterCssSel r = some (.cssSel s0)) : s0 ≠ [] := by
  cases r with
  | nil => exact absurd h (by simp [hfilterCssSel])
  | cons c r5 =>
    rw [show hfilterCssSel (c :: r5) =
      (if (c == '#' && !r5.isEmpty && r5.all (fun a => a != '\x7b' && a != '\x7d')) = true
        then some (HBody.cssSel r5) else none) from rfl] at h
    split at h
    · next hg =>
      injection h with h
      injection h with h
      subst h
      simp only [Bool.and_eq_true] at hg
      intro hn
      subst hn
      exact absurd hg.1.2 (by simp)
    · exact absurd h (by simp)

theorem hfilterBody_cssSel (r s0 : List Char)
    (h : hfilterBody r = some (.cssSel s0)) : s0 ≠ [] := by
  unfold hfilterBody at h
  cases ht : matchTagRules r with
  | some tg =>
    rw [ht] at h
    rcases tg with ⟨tag, g4⟩
    injection h with h
    cases h
  | none =>
    rw [ht] at h
    exact hfilterCssSel_ne_nil r s0 h

theorem hfilterAfterHash_cssSel (rest : List Char) (a : Bool) (s0 : List Char)
    (h : hfilterAfterHash rest = some (a, .cssSel s0)) : s0 ≠ [] := by
  cases rest with
  | nil =>
    rw [show hfilterAfterHash [] =
      (match hfilterBody ([] : List Char) with
        | some b => some (false, b)
        | none => none) from rfl] at h
    split at h
    · next b hb =>
      injection h with h; injection h with h1 h2
      exact hfilterBody_cssSel [] s0 (h2 ▸ hb)
    · exact absurd h (by simp)
  | cons c r2 =>
    rw [show hfilterAfterHash (c :: r2) =
      (if (c == '@') = true then
        match hfilterBody r2 with
        | some b => some (true, b)
        | none =>
          match hfilterBody (c :: r2) with
          | some b => some (false, b)
          | none => none
      else
        match hfilterBody (c :: r2) with
        | some b => some (false, b)
        | none => none) from rfl] at h
    split at h
    · split at h
      · next b hb =>
        injection h with h; injection h with h1 h2
        exact hfilterBody_cssSel r2 s0 (h2 ▸ hb)
      · split at h
        · next b hb =>
          injection h with h; injection h with h1 h2
          exact hfilterBody_cssSel (c :: r2) s0 (h2 ▸ hb)
        · exact absurd h (by simp)
    · split at h
      · next b hb =>
        injection h with h; injection h with h1 h2
        exact hfilterBody_cssSel (c :: r2) s0 (h2 ▸ hb)
      · exact absurd h (by simp)

theorem hfilterScan_cssSel :
    ∀ (s pre : List Char) (m : HMatch) (s0 : List Char),
      hfilterScan pre s = some m → m.body = .cssSel s0 → s0 ≠ [] := by
  intro s
  induction s with
  | nil => intro pre m s0 h _; exact absurd h (by simp [hfilterScan])
  | cons c rest ih =>
    intro pre m s0 h hb
    unfold hfilterScan at h
    split at h
    · cases ha : hfilterAfterHash rest with
      | some ab =>
        rw [ha] at h
        rcases ab with ⟨a, b⟩
        injection h with h
        subst h
        exact hfilterAfterHash_cssSel rest a s0 (hb ▸ ha)
      | none =>
        rw [ha] at h
        exact ih (c :: pre) m s0 h hb
    · split at h
      · exact ih (c :: pre) m s0 h hb
      · exact absurd h (by simp)

theorem _parse_hiding_shape (text : List Char) (m : HMatch) (r : Record)
    (h : _parse_hiding_filter text m = .ok r) :
    ∃ x sel doms, r = .HidingFilter text x sel doms := by
  unfold _parse_hiding_filter at h
  split at h
  · injection h with h
    exact ⟨_, _, _, h.symm⟩
  · split at h
    · injection h with h
      exact ⟨_, _, _, h.symm⟩
    · exact absurd h (by simp)

theorem _parse_hiding_ok (text : List Char) (m : HMatch) (r : Record)
    (hb : ∀ s0, m.body = .cssSel s0 → s0 ≠ [])
    (h : _parse_hiding_filter text m = .ok r) :
    ∃ x sel doms, r = .HidingFilter text x sel doms ∧ sel ≠ [] := by
  unfold _parse_hiding_filter at h
  split at h
  · next s hm =>
    injection h with h
    exact ⟨_, _, _, h.symm, hb s hm⟩
  · next tag rules hm =>
    split at h
    · next sel hsel =>
      injection h with h
      exact ⟨_, _, _, h.symm, tag_rules_selector_ne_nil text tag rules sel hsel⟩
    · exact absurd h (by simp)

theorem classify_hiding (content e : List Char) (x : Bool) (s : List Char)
    (d : List (List Char)) (h : classify content = .ok (.HidingFilter e x s d)) :
    e = content ∧ s ≠ [] := by
  unfold classify at h
  split at h
  · injection h with h; cases h
  · split at h
    · injection h with h
      rcases _parse_comment_shape content with ⟨k, v, hs⟩ | ⟨cc, hs⟩ <;> rw [hs] at h <;> cases h
    · split at h
      · obtain ⟨xx, hr⟩ := _parse_instruction_ok content _ h
        cases hr
      · split at h
        · obtain ⟨vv, hr⟩ := _parse_header_ok content _ h
          cases hr
        · unfold _parse_filter at h
          split at h
          · next m hm =>
            have hbm : ∀ s0, m.body = .cssSel s0 → s0 ≠ [] := by
              intro s0 hb
              by_cases hc : content.contains '#'
              · rw [if_pos hc] at hm
                exact hfilterScan_cssSel content [] m s0 hm hb
              · rw [if_neg hc] at hm; cases hm
            obtain ⟨x', sel, doms, hr, hne⟩ := _parse_hiding_ok content m _ hbm h
            injection hr with he hx hsel hd
            exact ⟨he, by rw [hsel]; exact hne⟩
          · obtain ⟨x', o', p', hr⟩ := _parse_blocking_ok content _ h
            cases hr

theorem classify_blocking (content e : List Char) (x : Bool)
    (o : List (List Char × OptValue)) (p : List Char)
    (h : classify content = .ok (.BlockingFilter e x o p)) : e = content := by
  unfold classify at h
  split at h
  · injection h with h; cases h
  · split at h
    · injection h with h
      rcases _parse_comment_shape content with ⟨k, v, hs⟩ | ⟨cc, hs⟩ <;> rw [hs] at h <;> cases h
    · split at h
      · obtain ⟨xx, hr⟩ := _parse_instruction_ok content _ h; cases hr
      · split at h
        · obtain ⟨vv, hr⟩ := _parse_header_ok content _ h; cases hr
        · unfold _parse_filter at h
          split at h
          · obtain ⟨x', sel, doms, hr⟩ := _parse_hiding_shape content _ _ h
            cases hr
          · obtain ⟨x', o', p', hr⟩ := _parse_blocking_ok content _ h
            injection hr with he hx ho hp

theorem parse_line_hiding (l e : List Char) (x : Bool) (s : List Char)
    (d : List (List Char)) (h : parse_line l = .ok (.HidingFilter e x s d)) :
    e = strip l ∧ s ≠ [] := by
  unfold parse_line at h
  split at h
  · exact absurd h (by simp)
  · next line hcl =>
    split at h
    · injection h with h
      subst h
      exact classify_hiding (strip l) e x s d hcl
    · exact absurd h (by simp)

theorem parse_line_blocking (l e : List Char) (x : Bool)
    (o : List (List Char × OptValue)) (p : List Char)
    (h : parse_line l = .ok (.BlockingFilter e x o p)) : e = strip l := by
  unfold parse_line at h
  split at h
  · exact absurd h (by simp)
  · next line hcl =>
    split at h
    · injection h with h
      subst h
      exact classify_blocking (strip l) e x o p hcl
    · exact absurd h (by simp)

/-- C9: the `selector` of every successfully parsed `HidingFilter` is
nonempty, and the legacy rule `abc.com#*`, whose tag and attribute list
both reduce to nothing, is rejected with the `Filter matches everything`
parse error rather than producing an empty selector. -/
theorem C9_selector_nonempty :
    (∀ (l e : List Char) (x : Bool) (s : List Char) (d : List (List Char)),
      parse_line l = .ok (.HidingFilter e x s d) → s ≠ []) ∧
    parse_line ("abc.com#*".data) =
      .error (.parseError ("abc.com#*".data) ("Filter matches everything".data)) :=
  ⟨fun l e x s d h => (parse_line_hiding l e x s d h).2, by decide⟩

/-- C9 witness: a concrete successfully parsed hiding filter and its
nonempty selector. -/
theorem C9_selector_nonempty_witness :
    parse_line ("abc.com,cdf.com##div#ad1".data) =
      .ok (.HidingFilter ("abc.com,cdf.com##div#ad1".data) false ("div#ad1".data)
        [("abc.com".data), ("cdf.com".data)]) ∧
    ("div#ad1".data) ≠ [] :=
  ⟨by decide, C9_selector_nonempty.1 ("abc.com,cdf.com##div#ad1".data)
    ("abc.com,cdf.com##div#ad1".data) false ("div#ad1".data)
    [("abc.com".data), ("cdf.com".data)] (by decide)⟩

/-- C10: for every successfully parsed `BlockingFilter` or `HidingFilter`,
`to_string` returns exactly the stored `expression`, which equals the
trimmed input line; for the two filter kinds the round trip is exact string
identity. -/
theorem C10_filter_exact_roundtrip (l : List Char) :
    (∀ (e : List Char) (x : Bool) (o : List (List Char × OptValue)) (p : List Char),
      parse_line l = .ok (.BlockingFilter e x o p) →
      to_string (.BlockingFilter e x o p) = e ∧ e = strip l) ∧
    (∀ (e : List Char) (x : Bool) (s : List Char) (d : List (List Char)),
      parse_line l = .ok (.HidingFilter e x s d) →
      to_string (.HidingFilter e x s d) = e ∧ e = strip l) :=
  ⟨fun e x o p h => ⟨rfl, parse_line_blocking l e x o p h⟩,
   fun e x s d h => ⟨rfl, (parse_line_hiding l e x s d h).1⟩⟩

/-- C10 witness: a concrete blocking filter whose render equals its
expression, itself the trimmed line. -/
theorem C10_filter_exact_roundtrip_witness :
    parse_line ("@@||example.com/good.gif".data) =
      .ok (.BlockingFilter ("@@||example.com/good.gif".data) true []
        ("||example.com/good.gif".data)) ∧
    (to_string (.BlockingFilter ("@@||example.com/good.gif".data) true []
        ("||example.com/good.gif".data)) = ("@@||example.com/good.gif".data) ∧
      ("@@||example.com/good.gif".data) = strip ("@@||example.com/good.gif".data)) :=
  ⟨by decide, (C10_filter_exact_roundtrip ("@@||example.com/good.gif".data)).1
    ("@@||example.com/good.gif".data) true [] ("||example.com/good.gif".data) (by decide)⟩

end Abp
